import Mathlib

/-!
# Verification of the YMCA card maker core (src/ymca_card_maker.py)

Shallow embedding of the data-encoding, filename-sanitization, barcode
cache and page-layout logic of `ymca_card_maker.py`, together with
theorems settling the specification claims about them.

Strings are modelled as `List Char`; the Python string primitives used by
the tool (`str.strip`, `str.upper` on ASCII data) are modelled explicitly.
Fallible operations (`str.index` raising `ValueError`, `subprocess.run`
with `check=True` raising `CalledProcessError`) are modelled with
`Option` / `Except`.
-/

namespace YmcaCard

/-- Python `str.isspace` on the ASCII whitespace characters (the characters
`str.strip()` removes from ASCII text): space, tab, newline, carriage
return, vertical tab, form feed. -/
def pyIsSpace (c : Char) : Bool :=
  c == ' ' || c == '\t' || c == '\n' || c == '\r' || c == '\x0b' || c == '\x0c'

/-- Python `s.strip()`: drop whitespace from both ends. -/
def pyStrip (s : List Char) : List Char :=
  ((s.dropWhile pyIsSpace).reverse.dropWhile pyIsSpace).reverse

/-- Python `s.upper()` on ASCII text (uppercases `a`-`z`, leaves the rest). -/
def pyUpper (s : List Char) : List Char :=
  s.map Char.toUpper

/-- `C39_CHARS = "0123456789ABCDEFGHIJKLMNOPQRSTUVWXYZ-. $/+%"` (line 118):
the fixed 43-symbol Code 39 alphabet. -/
def C39_CHARS : List Char :=
  "0123456789ABCDEFGHIJKLMNOPQRSTUVWXYZ-. $/+%".data

theorem C39_CHARS_length : C39_CHARS.length = 43 := by decide

/-- Python `C39_CHARS.index(ch)`: the zero-based index of `ch` in the
alphabet, `none` when absent (Python raises `ValueError`). -/
def c39Index (c : Char) : Option Nat :=
  C39_CHARS.findIdx? (· == c)

/-- The loop `for ch in clean: s += C39_CHARS.index(ch)` of
`mod43_check_digit` (lines 123-125): sums the alphabet indexes, failing on
the first character outside the alphabet. -/
def c39IndexSum : List Char → Option Nat
  | [] => some 0
  | c :: rest =>
    match c39Index c, c39IndexSum rest with
    | some i, some s => some (i + s)
    | _, _ => none

/-- `mod43_check_digit(data)` (lines 121-126): uppercase the input, delete
every `*`, sum the alphabet indexes of the remaining characters and return
the alphabet symbol at the sum modulo 43.  `none` models the `ValueError`
Python raises when a cleaned character is not in the alphabet. -/
def mod43_check_digit (data : List Char) : Option Char :=
  let clean := (pyUpper data).filter (fun c => c ≠ '*')
  (c39IndexSum clean).map (fun s =>
    C39_CHARS.get ⟨s % 43, by rw [C39_CHARS_length]; exact Nat.mod_lt _ (by decide)⟩)

/-- The character class `[A-Za-z0-9._-]` of the regex in `safe_filename`
(line 130). -/
def isFilenameSafe (c : Char) : Bool :=
  c.isUpper || c.isLower || c.isDigit || c == '.' || c == '_' || c == '-'

/-- `re.sub(r"[^A-Za-z0-9._-]+", "_", s)`: every maximal run of characters
outside the class becomes a single underscore.  The boolean argument
records whether the previous character was part of an unsafe run. -/
def subSafeAux : Bool → List Char → List Char
  | _, [] => []
  | inRun, c :: rest =>
    if isFilenameSafe c then c :: subSafeAux false rest
    else if inRun then subSafeAux true rest
    else '_' :: subSafeAux true rest

/-- `safe_filename(s)` (lines 129-131): strip, replace unsafe runs with a
single `_`, truncate to 120 characters. -/
def safe_filename (s : List Char) : List Char :=
  (subSafeAux false (pyStrip s)).take 120

/-- The intermediate `data` of `build_data` before the checksum step
(lines 283-285): uppercased stripped raw input, with a leading `+` when
the plus prefix is requested. -/
def base_data (raw : List Char) (plus : Bool) : List Char :=
  let data := pyUpper (pyStrip raw)
  if plus then '+' :: data else data

/-- `build_data(raw, checksum, plus)` (lines 282-291): returns the pair
`(data, bottom)` of the encoded string sent to the renderer and the
human-readable bottom text.  `none` models the `ValueError` propagating
out of `mod43_check_digit`. -/
def build_data (raw : List Char) (checksum plus : Bool) :
    Option (List Char × List Char) :=
  let data := base_data raw plus
  let bottom := data
  if checksum then
    match mod43_check_digit data with
    | some cd => some (data ++ [cd], bottom ++ [cd])
    | none => none
  else
    some (data, bottom)

/-- The cache file name `f"{safe_filename(data)}.svg"` used inside
`gen_dir` by the card reports (lines 395, 416, 436, 463-464). -/
def svgCacheName (data : List Char) : List Char :=
  safe_filename data ++ ".svg".data

/-! ## Barcode artifact cache

The cache directory `gen_dir` is modelled as the set of file names it
contains.  The external renderer (Zint) is modelled at its interface
boundary: it is invoked through `subprocess.run(args, check=True)`, so an
exit code of 0 means the requested artifact file now exists, and a
nonzero exit code raises `CalledProcessError` with no artifact written. -/

/-- Python exceptions that can cross the functions modelled here. -/
inductive PyExc where
  /-- `subprocess.CalledProcessError` raised by `subprocess.run(check=True)`
  when the renderer exits with the given nonzero code. -/
  | calledProcessError (exitCode : Nat)
deriving DecidableEq

/-- The contents of the barcode cache directory `gen_dir`. -/
structure GenDir where
  files : List (List Char)
deriving DecidableEq

/-- `zint_make_svg` (lines 262-267): invoke the renderer for `fname`.
`exitCode` is the renderer's exit status; 0 writes the artifact, nonzero
raises `CalledProcessError` (from `check=True`) leaving the cache
directory unchanged. -/
def zint_make_svg (exitCode : Nat) (st : GenDir) (fname : List Char) :
    GenDir × Except PyExc Unit :=
  if exitCode = 0 then (⟨fname :: st.files⟩, .ok ())
  else (st, .error (.calledProcessError exitCode))

/-- The cache lookup of the card reports (lines 394-397, identically at
415-418, 435-438, 462-468):
`svg = gen_dir / f"{safe_filename(data)}.svg"; if not svg.exists():
zint_make_svg(...)`.  Returns the new cache state and, on success, the
artifact file name together with the number of renderer invocations this
call performed (0 on a cache hit, 1 on a miss). -/
def ensure_barcode_svg (exitCode : Nat) (st : GenDir) (data : List Char) :
    GenDir × Except PyExc (List Char × Nat) :=
  let fname := svgCacheName data
  if fname ∈ st.files then (st, .ok (fname, 0))
  else
    match zint_make_svg exitCode st fname with
    | (st2, .ok ()) => (st2, .ok (fname, 1))
    | (st2, .error e) => (st2, .error e)

/-! ## Page geometry

Lengths are in PostScript points, modelled as exact rationals
(`mm = 72 / 25.4` points).  Constants from lines 80-116 and
`letter_layout_positions` (lines 363-372). -/

/-- One millimetre in points (`from reportlab.lib.units import mm`). -/
def mmUnit : ℚ := 72 / 25.4

def CARD_W : ℚ := 85.60 * mmUnit
def CARD_H : ℚ := 53.98 * mmUnit

/-- US letter page size in points (`reportlab.lib.pagesizes.letter`). -/
def PAGE_W : ℚ := 612
def PAGE_H : ℚ := 792

def COLS : Nat := 2
def ROWS : Nat := 3

/-- `letter_layout_positions` (lines 363-372) returns
`(start_x, start_y_top, gap_x, gap_y)`. -/
def margin_x : ℚ := 12 * mmUnit
def margin_top : ℚ := 12 * mmUnit
def gap_x : ℚ := 12 * mmUnit
def gap_y : ℚ := 18 * mmUnit
def start_x : ℚ := margin_x
def start_y_top : ℚ := PAGE_H - margin_top - CARD_H

/-- `row = i // COLS` in the 6-up loops (lines 446, 476). -/
def slotRow (i : Nat) : Nat := i / COLS

/-- `col = i % COLS` in the 6-up loops (lines 447, 477). -/
def slotCol (i : Nat) : Nat := i % COLS

/-- `x = start_x + col * (CARD_W + gap_x)` (lines 448, 478). -/
def slotX (i : Nat) : ℚ := start_x + (slotCol i : ℚ) * (CARD_W + gap_x)

/-- `y = start_y_top - row * (CARD_H + gap_y)` (lines 449, 479). -/
def slotY (i : Nat) : ℚ := start_y_top - (slotRow i : ℚ) * (CARD_H + gap_y)

/-! ## Six-up mixed report -/

/-- One `draw_ymca_card` call issued by a report: the page-space origin of
the card, the barcode artifact file it composites, and the bottom text it
prints. -/
structure DrawnCard where
  x : ℚ
  y : ℚ
  svg : List Char
  bottom : List Char
deriving DecidableEq

/-- `report_ymca_letter_6up_mixed` (lines 458-488), abstracted to the list
of `draw_ymca_card` calls it issues: builds the plain and checksum
variants of the input, then composites column 0 with the plain variant
and the other column with the checksum variant.  `none` models the
`ValueError` from `mod43_check_digit` on bad input. -/
def report_ymca_letter_6up_mixed (raw : List Char) (plus : Bool) :
    Option (List DrawnCard) :=
  match build_data raw false plus, build_data raw true plus with
  | some (plain_data, plain_bottom), some (chk_data, chk_bottom) =>
    some ((List.range (ROWS * COLS)).map (fun i =>
      if slotCol i = 0 then
        ⟨slotX i, slotY i, svgCacheName plain_data, plain_bottom⟩
      else
        ⟨slotX i, slotY i, svgCacheName chk_data, chk_bottom⟩))
  | _, _ => none

/-- The `ymca_letter_6up_mixed` branch of `main` (lines 543-544): the
parsed `--checksum` flag is in scope but is not passed to
`report_ymca_letter_6up_mixed` (which takes no checksum parameter). -/
def main_mixed (checksum : Bool) (raw : List Char) (plus : Bool) :
    Option (List DrawnCard) :=
  let _ := checksum
  report_ymca_letter_6up_mixed raw plus

/-! ## Helper lemmas -/

theorem mem_subSafeAux {c : Char} :
    ∀ (b : Bool) (l : List Char), c ∈ subSafeAux b l → isFilenameSafe c = true := by
  intro b l
  induction l generalizing b with
  | nil => intro h; cases h
  | cons a t ih =>
    intro h
    by_cases ha : isFilenameSafe a
    · rw [subSafeAux, if_pos ha] at h
      rcases List.mem_cons.mp h with rfl | h
      · exact ha
      · exact ih false h
    · rw [subSafeAux, if_neg ha] at h
      cases b with
      | true => exact ih true h
      | false =>
        rcases List.mem_cons.mp h with rfl | h
        · decide
        · exact ih true h

theorem subSafeAux_eq_self (l : List Char)
    (h : ∀ c ∈ l, isFilenameSafe c = true) : subSafeAux false l = l := by
  induction l with
  | nil => rfl
  | cons a t ih =>
    rw [subSafeAux, if_pos (h a (List.mem_cons_self a t))]
    exact congrArg (a :: ·) (ih fun c hc => h c (List.mem_cons_of_mem _ hc))

theorem dropWhile_eq_self_of_false (p : Char → Bool) (l : List Char)
    (h : ∀ c ∈ l, p c = false) : l.dropWhile p = l := by
  cases l with
  | nil => rfl
  | cons a t => rw [List.dropWhile_cons_of_neg]; simp [h a (List.mem_cons_self a t)]

theorem isFilenameSafe_not_space (c : Char) (h : isFilenameSafe c = true) :
    pyIsSpace c = false := by
  by_contra hs
  have hs' : pyIsSpace c = true := by simpa using hs
  simp only [pyIsSpace, Bool.or_eq_true, beq_iff_eq] at hs'
  rcases hs' with ((((rfl | rfl) | rfl) | rfl) | rfl) | rfl <;>
    exact absurd h (by decide)

theorem pyStrip_eq_self (l : List Char)
    (h : ∀ c ∈ l, pyIsSpace c = false) : pyStrip l = l := by
  unfold pyStrip
  rw [dropWhile_eq_self_of_false _ _ h,
    dropWhile_eq_self_of_false _ _ (fun c hc => h c (List.mem_reverse.mp hc)),
    List.reverse_reverse]

theorem safe_filename_chars (s : List Char) :
    ∀ c ∈ safe_filename s, isFilenameSafe c = true :=
  fun _ hc => mem_subSafeAux _ _ (List.take_subset _ _ hc)

/-- The summation loop succeeds on any string over the alphabet. -/
theorem c39IndexSum_isSome (l : List Char)
    (h : ∀ c ∈ l, c ∈ C39_CHARS) : (c39IndexSum l).isSome = true := by
  induction l with
  | nil => rfl
  | cons a t ih =>
    have ha : (c39Index a).isSome = true := by
      rw [c39Index, List.findIdx?_isSome, List.any_eq_true]
      exact ⟨a, h a (List.mem_cons_self a t), by simp⟩
    rw [c39IndexSum]
    rcases Option.isSome_iff_exists.mp ha with ⟨i, hi⟩
    rcases Option.isSome_iff_exists.mp
      (ih fun c hc => h c (List.mem_cons_of_mem _ hc)) with ⟨s, hs⟩
    rw [hi, hs]
    rfl

/-- Every character the cleaning step of `mod43_check_digit` keeps from an
input over the extended alphabet lies in the 43-symbol alphabet. -/
theorem clean_mem_C39 (d : List Char)
    (hd : ∀ c ∈ d, c ∈ C39_CHARS ++ "abcdefghijklmnopqrstuvwxyz*".data) :
    ∀ x ∈ (pyUpper d).filter (fun c => c ≠ '*'), x ∈ C39_CHARS := by
  intro x hx
  rw [List.mem_filter] at hx
  rcases hx with ⟨hmem, hne⟩
  rcases List.mem_map.mp hmem with ⟨c, hc, rfl⟩
  have hext := hd c hc
  have key : ∀ c ∈ C39_CHARS ++ "abcdefghijklmnopqrstuvwxyz*".data,
      Char.toUpper c = '*' ∨ Char.toUpper c ∈ C39_CHARS := by decide
  rcases key c hext with hstar | hin
  · rw [hstar] at hne; simp at hne
  · exact hin

theorem toNat_ofNat_valid {n : Nat} (h : n.isValidChar) :
    (Char.ofNat n).toNat = n := by
  rw [Char.ofNat, dif_pos h]
  rfl

theorem pyIsSpace_eq_false_of_code {x : Char} (h : 64 < x.toNat) :
    pyIsSpace x = false := by
  simp only [pyIsSpace, Bool.or_eq_false_iff, beq_eq_false_iff_ne]
  refine ⟨⟨⟨⟨⟨?_, ?_⟩, ?_⟩, ?_⟩, ?_⟩, ?_⟩ <;>
    rintro rfl <;> exact absurd h (by decide)

/-- Python's ASCII `upper` preserves whitespace-ness: uppercasing a
character neither creates nor destroys a whitespace character. -/
theorem pyIsSpace_toUpper (c : Char) :
    pyIsSpace c.toUpper = pyIsSpace c := by
  simp only [Char.toUpper]
  by_cases h : c.toNat ≥ 97 ∧ c.toNat ≤ 122
  · rw [if_pos h]
    have hv : (c.toNat - 32).isValidChar := Or.inl (by omega)
    have ht : (Char.ofNat (c.toNat - 32)).toNat = c.toNat - 32 :=
      toNat_ofNat_valid hv
    rw [@pyIsSpace_eq_false_of_code (Char.ofNat (c.toNat - 32))
        (by rw [ht]; omega),
      pyIsSpace_eq_false_of_code (by omega)]
  · rw [if_neg h]

theorem dropWhile_append_singleton (p : Char → Bool) (c : Char)
    (hc : p c = false) :
    ∀ l : List Char, (l ++ [c]).dropWhile p = l.dropWhile p ++ [c] := by
  intro l
  induction l with
  | nil => simp [List.dropWhile, hc]
  | cons a t ih =>
    by_cases ha : p a
    · rw [List.cons_append, List.dropWhile_cons_of_pos ha,
        List.dropWhile_cons_of_pos ha, ih]
    · rw [List.cons_append,
        List.dropWhile_cons_of_neg (by simp [ha]),
        List.dropWhile_cons_of_neg (by simp [ha]), List.cons_append]

theorem dropWhile_head_false (p : Char → Bool) :
    ∀ (l : List Char) (a : Char) (t : List Char),
      l.dropWhile p = a :: t → p a = false := by
  intro l
  induction l with
  | nil => intro a t h; cases h
  | cons b l ih =>
    intro a t h
    by_cases hb : p b
    · rw [List.dropWhile_cons_of_pos hb] at h
      exact ih a t h
    · rw [List.dropWhile_cons_of_neg (by simp [hb])] at h
      cases h
      simpa using hb

/-- `dropWhile` is idempotent. -/
theorem dropWhile_dropWhile (p : Char → Bool) (l : List Char) :
    (l.dropWhile p).dropWhile p = l.dropWhile p := by
  cases h : l.dropWhile p with
  | nil => rfl
  | cons a t =>
    rw [List.dropWhile_cons_of_neg]
    simp [dropWhile_head_false p l a t h]

/-- A left part of a `dropWhile`-fixed list is itself `dropWhile`-fixed. -/
theorem dropWhile_fixed_of_decomp (p : Char → Bool) (l m t : List Char)
    (hl : l.dropWhile p = l) (hd : l = m ++ t) : m.dropWhile p = m := by
  cases m with
  | nil => rfl
  | cons a m2 =>
    have ha : p a = false := by
      by_contra hpa
      have hpa' : p a = true := by simpa using hpa
      have hstep : l.dropWhile p = (m2 ++ t).dropWhile p := by
        rw [hd, List.cons_append, List.dropWhile_cons_of_pos hpa']
      have hlen : ((m2 ++ t).dropWhile p).length ≤ (m2 ++ t).length :=
        (List.dropWhile_sublist p).length_le
      rw [hl] at hstep
      rw [← hstep] at hlen
      rw [hd] at hlen
      simp at hlen
    rw [List.dropWhile_cons_of_neg (by simp [ha])]

/-- Cutting characters off the tail of a `dropWhile`-fixed list keeps it
`dropWhile`-fixed. -/
theorem dropWhile_fixed_rstrip (p : Char → Bool) (l : List Char)
    (hl : l.dropWhile p = l) :
    ((l.reverse.dropWhile p).reverse).dropWhile p
      = (l.reverse.dropWhile p).reverse := by
  have h1 : l.reverse.takeWhile p ++ l.reverse.dropWhile p = l.reverse :=
    List.takeWhile_append_dropWhile p l.reverse
  have h2 : l = (l.reverse.dropWhile p).reverse
      ++ (l.reverse.takeWhile p).reverse := by
    conv_lhs => rw [← l.reverse_reverse, ← h1]
    rw [List.reverse_append]
  exact dropWhile_fixed_of_decomp p l _ _ hl h2

/-- Uppercasing preserves `dropWhile pyIsSpace`-fixedness. -/
theorem dropWhile_pyUpper_fixed (l : List Char)
    (hl : l.dropWhile pyIsSpace = l) :
    (pyUpper l).dropWhile pyIsSpace = pyUpper l := by
  cases l with
  | nil => rfl
  | cons a t =>
    have ha : pyIsSpace a = false := dropWhile_head_false _ (a :: t) a t hl
    have ha2 : pyIsSpace a.toUpper = false := by
      rw [pyIsSpace_toUpper]; exact ha
    rw [pyUpper, List.map_cons, List.dropWhile_cons_of_neg (by simp [ha2])]

/-- The encoded value built by `build_data` has no leading whitespace. -/
theorem base_data_lstrip (raw : List Char) (plus : Bool) :
    (base_data raw plus).dropWhile pyIsSpace = base_data raw plus := by
  cases plus with
  | true =>
    rw [base_data]
    exact List.dropWhile_cons_of_neg (by simp [pyIsSpace])
  | false =>
    rw [base_data]
    apply dropWhile_pyUpper_fixed
    rw [pyStrip]
    exact dropWhile_fixed_rstrip pyIsSpace _ (dropWhile_dropWhile _ _)

theorem pyUpper_reverse (l : List Char) :
    (pyUpper l).reverse = pyUpper l.reverse := by
  simp [pyUpper]

theorem pyStrip_reverse_fixed (raw : List Char) :
    (pyStrip raw).reverse.dropWhile pyIsSpace = (pyStrip raw).reverse := by
  rw [pyStrip, List.reverse_reverse]
  exact dropWhile_dropWhile pyIsSpace _

/-- The encoded value built by `build_data` has no trailing whitespace. -/
theorem base_data_rstrip (raw : List Char) (plus : Bool) :
    (base_data raw plus).reverse.dropWhile pyIsSpace
      = (base_data raw plus).reverse := by
  cases plus with
  | true =>
    show (('+' :: pyUpper (pyStrip raw)).reverse).dropWhile pyIsSpace
      = ('+' :: pyUpper (pyStrip raw)).reverse
    rw [List.reverse_cons, dropWhile_append_singleton pyIsSpace '+' (by decide),
      pyUpper_reverse, dropWhile_pyUpper_fixed _ (pyStrip_reverse_fixed raw)]
  | false =>
    show ((pyUpper (pyStrip raw)).reverse).dropWhile pyIsSpace
      = (pyUpper (pyStrip raw)).reverse
    rw [pyUpper_reverse]
    exact dropWhile_pyUpper_fixed _ (pyStrip_reverse_fixed raw)

/-- `build_data`'s encoded value is its own `strip`. -/
theorem pyStrip_base_data (raw : List Char) (plus : Bool) :
    pyStrip (base_data raw plus) = base_data raw plus := by
  rw [pyStrip, base_data_lstrip, base_data_rstrip, List.reverse_reverse]

/-- Appending one filename-safe character to a whitespace-free string
commutes with the regex substitution of `safe_filename`. -/
theorem subSafeAux_append_safe (c : Char) (hc : isFilenameSafe c = true) :
    ∀ (b : Bool) (l : List Char),
      subSafeAux b (l ++ [c]) = subSafeAux b l ++ [c] := by
  intro b l
  induction l generalizing b with
  | nil => simp [subSafeAux, hc]
  | cons a t ih =>
    by_cases ha : isFilenameSafe a
    · rw [List.cons_append, subSafeAux, if_pos ha, subSafeAux, if_pos ha,
        ih false, List.cons_append]
    · cases b with
      | true =>
        rw [List.cons_append, subSafeAux, if_neg ha, if_pos rfl,
          subSafeAux, if_neg ha, if_pos rfl, ih true]
      | false =>
        rw [List.cons_append, subSafeAux, if_neg ha, if_neg (by simp),
          subSafeAux, if_neg ha, if_neg (by simp), ih true,
          List.cons_append]

theorem pyStrip_append_safe (l : List Char) (c : Char)
    (hcs : pyIsSpace c = false) (hl1 : l.dropWhile pyIsSpace = l) :
    pyStrip (l ++ [c]) = l ++ [c] := by
  rw [pyStrip, dropWhile_append_singleton pyIsSpace c hcs l, hl1,
    List.reverse_append]
  simp only [List.reverse_cons, List.reverse_nil, List.nil_append,
    List.singleton_append]
  rw [List.dropWhile_cons_of_neg (by simp [hcs])]
  simp

/-- Appending one filename-safe character to a fully stripped string
extends its sanitized filename by exactly that character, provided the
120-character truncation limit is not reached. -/
theorem safe_filename_append_safe (l : List Char) (c : Char)
    (hc : isFilenameSafe c = true)
    (hl1 : l.dropWhile pyIsSpace = l)
    (hl2 : pyStrip l = l)
    (hlen : (safe_filename l).length < 120) :
    safe_filename (l ++ [c]) = safe_filename l ++ [c] := by
  have hcs : pyIsSpace c = false := isFilenameSafe_not_space c hc
  have hXlen : (subSafeAux false l).length < 120 := by
    have heq : safe_filename l = (subSafeAux false l).take 120 := by
      rw [safe_filename, hl2]
    rw [heq, List.length_take] at hlen
    omega
  rw [safe_filename, pyStrip_append_safe l c hcs hl1,
    subSafeAux_append_safe c hc false l, safe_filename, hl2]
  have h1 : (subSafeAux false l ++ [c]).length ≤ 120 := by
    rw [List.length_append]
    simp only [List.length_cons, List.length_nil]
    omega
  rw [List.take_of_length_le h1, List.take_of_length_le (le_of_lt hXlen)]

/-! ## Claim theorems -/

/-- C5: for every slot index `i` in `0..5` of the six-card grid, the
slot's row is `i div 2` and its column `i mod 2`, its origin follows the
margin/gap formulas of `letter_layout_positions` and the 6-up loop;
consequently slot 0 sits at `(left margin, page height − top margin −
card height)`, slot 5 has row 2 and column 1, and slot 5 is exactly two
row-strides below slot 0. -/
theorem claim_C5 (i : Nat) (hi : i < 6) :
    slotRow i = i / 2 ∧ slotCol i = i % 2 ∧
    slotX i = margin_x + (slotCol i : ℚ) * (CARD_W + gap_x) ∧
    slotY i = (PAGE_H - margin_top - CARD_H) - (slotRow i : ℚ) * (CARD_H + gap_y) ∧
    slotX 0 = margin_x ∧ slotY 0 = PAGE_H - margin_top - CARD_H ∧
    slotRow 5 = 2 ∧ slotCol 5 = 1 ∧
    slotY 0 - slotY 5 = 2 * (CARD_H + gap_y) := by
  refine ⟨rfl, rfl, rfl, rfl, ?_, ?_, by decide, by decide, ?_⟩
  · simp [slotX, slotCol, COLS, start_x]
  · simp [slotY, slotRow, COLS, start_y_top]
  · show start_y_top - ((slotRow 0 : ℚ)) * _ - (start_y_top - ((slotRow 5 : ℚ)) * _) = _
    norm_num [slotRow, COLS]

theorem claim_C5_witness :
    (3 : Nat) < 6 ∧
    (slotRow 3 = 3 / 2 ∧ slotCol 3 = 3 % 2 ∧
     slotX 3 = margin_x + (slotCol 3 : ℚ) * (CARD_W + gap_x) ∧
     slotY 3 = (PAGE_H - margin_top - CARD_H) - (slotRow 3 : ℚ) * (CARD_H + gap_y) ∧
     slotX 0 = margin_x ∧ slotY 0 = PAGE_H - margin_top - CARD_H ∧
     slotRow 5 = 2 ∧ slotCol 5 = 1 ∧
     slotY 0 - slotY 5 = 2 * (CARD_H + gap_y)) :=
  ⟨by decide, claim_C5 3 (by decide)⟩

/-- C7: two successive artifact requests for the same encoded data with a
succeeding renderer yield the same artifact file name; the first call
invokes the renderer at most once, and the second finds the entry the
first created and invokes it zero times, leaving the cache unchanged. -/
theorem claim_C7 (st : GenDir) (data : List Char) :
    ∃ n1,
      (ensure_barcode_svg 0 st data).2 = .ok (svgCacheName data, n1) ∧ n1 ≤ 1 ∧
      (ensure_barcode_svg 0 (ensure_barcode_svg 0 st data).1 data).2
        = .ok (svgCacheName data, 0) ∧
      (ensure_barcode_svg 0 (ensure_barcode_svg 0 st data).1 data).1
        = (ensure_barcode_svg 0 st data).1 := by
  by_cases h : svgCacheName data ∈ st.files
  · exact ⟨0, by simp [ensure_barcode_svg, h]⟩
  · exact ⟨1, by simp [ensure_barcode_svg, zint_make_svg, h]⟩

/-- C3: on a cache miss, a nonzero renderer exit propagates as the
distinct `CalledProcessError` failure, the cache state is unchanged, and
a subsequent request for the same encoded data is still a cache miss
(it invokes the renderer rather than treating the key as a hit). -/
theorem claim_C3 (st : GenDir) (data : List Char) (code : Nat)
    (hcode : code ≠ 0) (hmiss : svgCacheName data ∉ st.files) :
    ensure_barcode_svg code st data
      = (st, .error (.calledProcessError code)) ∧
    (ensure_barcode_svg 0 (ensure_barcode_svg code st data).1 data).2
      = .ok (svgCacheName data, 1) := by
  constructor
  · simp [ensure_barcode_svg, zint_make_svg, hmiss, hcode]
  · simp [ensure_barcode_svg, zint_make_svg, hmiss, hcode]

/-- C8: `safe_filename` first strips the input, then collapses every
maximal run of characters outside `[A-Za-z0-9._-]` into one underscore,
then truncates; the result is at most 120 characters long and contains
only characters of the class. -/
theorem claim_C8 (s : List Char) :
    safe_filename s = (subSafeAux false (pyStrip s)).take 120 ∧
    (safe_filename s).length ≤ 120 ∧
    ∀ c ∈ safe_filename s, isFilenameSafe c = true :=
  ⟨rfl,
   by rw [safe_filename, List.length_take]; exact Nat.min_le_left ..,
   safe_filename_chars s⟩

/-- C9: `safe_filename` is idempotent. -/
theorem claim_C9 (s : List Char) :
    safe_filename (safe_filename s) = safe_filename s := by
  have hsafe := safe_filename_chars s
  have hlen : (safe_filename s).length ≤ 120 := by
    rw [safe_filename, List.length_take]; exact Nat.min_le_left ..
  conv_lhs => rw [safe_filename]
  rw [pyStrip_eq_self _ (fun c hc => isFilenameSafe_not_space c (hsafe c hc)),
    subSafeAux_eq_self _ hsafe, List.take_of_length_le hlen]

/-- The summation loop of `mod43_check_digit` fails as soon as some
character of its input is outside the alphabet. -/
theorem c39IndexSum_eq_none (l : List Char)
    (h : ∃ c ∈ l, c ∉ C39_CHARS) : c39IndexSum l = none := by
  induction l with
  | nil => simp at h
  | cons a t ih =>
    rcases h with ⟨c, hc, hout⟩
    rcases List.mem_cons.mp hc with rfl | hct
    · have : c39Index c = none := by
        rw [c39Index, List.findIdx?_eq_none_iff]
        intro x hx
        simp only [beq_eq_false_iff_ne]
        exact fun hxc => hout (hxc ▸ hx)
      rw [c39IndexSum, this]
    · rw [c39IndexSum, ih ⟨c, hct, hout⟩]
      cases c39Index a <;> rfl

/-- C6 (amended): when the uppercased, `*`-stripped input still contains
a character outside the 43-symbol alphabet, `mod43_check_digit` fails
(the `ValueError` of `str.index`) instead of returning a symbol: nothing
is truncated, clamped or coerced. -/
theorem claim_C6_amended (d : List Char)
    (h : ∃ c ∈ (pyUpper d).filter (fun c => c ≠ '*'), c ∉ C39_CHARS) :
    mod43_check_digit d = none := by
  rw [mod43_check_digit, c39IndexSum_eq_none _ h]
  rfl

/-- C6 counterexample: `'a'` is outside the 43-symbol alphabet, yet
`mod43_check_digit "a"` does not fail — it uppercases the input first and
returns the symbol `'A'`. -/
theorem claim_C6_counterexample :
    mod43_check_digit ['a'] = some 'A' ∧ 'a' ∉ C39_CHARS := by
  decide

theorem claim_C6_witness :
    (∃ c ∈ (pyUpper ['a', '^']).filter (fun c => c ≠ '*'), c ∉ C39_CHARS) ∧
    mod43_check_digit ['a', '^'] = none :=
  ⟨by decide, claim_C6_amended ['a', '^'] (by decide)⟩

/-- C10: over the 43-symbol alphabet extended with lowercase letters and
`*`, the check digit is invariant under case folding and `*`-removal:
`mod43_check_digit d` equals the check digit of the uppercased input with
every `*` removed, and such input is accepted (no failure). -/
theorem claim_C10 (d : List Char)
    (hd : ∀ c ∈ d, c ∈ C39_CHARS ++ "abcdefghijklmnopqrstuvwxyz*".data) :
    mod43_check_digit d
      = mod43_check_digit ((pyUpper d).filter (fun c => c ≠ '*')) ∧
    (mod43_check_digit d).isSome = true := by
  have hmem := clean_mem_C39 d hd
  constructor
  · have hupper : pyUpper ((pyUpper d).filter (fun c => c ≠ '*'))
        = (pyUpper d).filter (fun c => c ≠ '*') := by
      have key : ∀ x ∈ C39_CHARS, Char.toUpper x = x := by decide
      rw [pyUpper]
      exact (List.map_congr_left fun x hx => key x (hmem x hx)).trans
        (List.map_id _)
    have hfilter : ((pyUpper d).filter (fun c => c ≠ '*')).filter
          (fun c => c ≠ '*')
        = (pyUpper d).filter (fun c => c ≠ '*') := by
      rw [List.filter_eq_self]
      exact fun a ha => (List.mem_filter.mp ha).2
    simp only [mod43_check_digit]
    rw [hupper, hfilter]
  · obtain ⟨s, hs⟩ :=
      Option.isSome_iff_exists.mp (c39IndexSum_isSome _ hmem)
    simp only [mod43_check_digit]
    rw [hs]
    rfl

theorem claim_C10_witness :
    (∀ c ∈ ['a', '*', 'B'],
      c ∈ C39_CHARS ++ "abcdefghijklmnopqrstuvwxyz*".data) ∧
    (mod43_check_digit ['a', '*', 'B']
       = mod43_check_digit
           ((pyUpper ['a', '*', 'B']).filter (fun c => c ≠ '*')) ∧
     (mod43_check_digit ['a', '*', 'B']).isSome = true) :=
  ⟨by decide, claim_C10 ['a', '*', 'B'] (by decide)⟩

/-- C1 counterexample: `build_data("abc", checksum=True, plus=True)`
returns encoded `"+ABCV"` and display `"+ABCV"`.  The display *does*
begin with `"+"`, and its checksum symbol `'V'` is computed over `"+ABC"`
(the `+` contributing its alphabet index 41), not the symbol `'X'` that a
checksum over `"ABC"` alone would give — so the display is not
`"ABC" ++ checksum("ABC") = "ABCX"` as the claim states. -/
theorem claim_C1_counterexample :
    build_data "abc".data true true = some ("+ABCV".data, "+ABCV".data) ∧
    ("+ABCV".data).head? = some '+' ∧
    mod43_check_digit "ABC".data = some 'X' ∧
    "+ABCV".data ≠ "ABCX".data := by
  refine ⟨by decide, by decide, by decide, by decide⟩

/-- C1 (amended): when both the plus prefix and the checksum are
requested, the encoded value is `'+' ++ U ++ cd` where `U` is the
uppercased stripped raw input and `cd` is the Mod-43 symbol computed over
`'+' ++ U` (the `+` sentinel included in the computation), and the
display text equals the encoded value — in particular it starts with the
leading `+`. -/
theorem claim_C1_amended (raw e b : List Char)
    (h : build_data raw true true = some (e, b)) :
    ∃ cd, mod43_check_digit ('+' :: pyUpper (pyStrip raw)) = some cd ∧
      e = ('+' :: pyUpper (pyStrip raw)) ++ [cd] ∧ b = e := by
  simp only [build_data, base_data, if_pos, if_true] at h
  cases hm : mod43_check_digit ('+' :: pyUpper (pyStrip raw)) with
  | none => rw [hm] at h; cases h
  | some cd =>
    rw [hm] at h
    refine ⟨cd, rfl, ?_, ?_⟩ <;>
      injection h with h1 <;> injection h1 with he hb
    · exact he.symm
    · rw [← he, ← hb]

theorem claim_C1_witness :
    build_data "abc".data true true = some ("+ABCV".data, "+ABCV".data) ∧
    (∃ cd, mod43_check_digit ('+' :: pyUpper (pyStrip "abc".data))
         = some cd ∧
       "+ABCV".data = ('+' :: pyUpper (pyStrip "abc".data)) ++ [cd] ∧
       "+ABCV".data = "+ABCV".data) :=
  ⟨by decide, claim_C1_amended "abc".data _ _ (by decide)⟩

/-- C4: in the six-card mixed report dispatched by `main`, the result is
independent of the parsed `--checksum` flag, the page has six cards, and
every card in grid column 0 composites the plain-variant artifact and
bottom text while every card in the other column composites the
checksum-variant artifact and bottom text. -/
theorem claim_C4 (cs : Bool) (raw : List Char) (plus : Bool)
    (plain_data plain_bottom chk_data chk_bottom : List Char)
    (h1 : build_data raw false plus = some (plain_data, plain_bottom))
    (h2 : build_data raw true plus = some (chk_data, chk_bottom)) :
    main_mixed cs raw plus = main_mixed (!cs) raw plus ∧
    ∃ page, main_mixed cs raw plus = some page ∧ page.length = 6 ∧
      ∀ i (hi : i < page.length),
        (page.get ⟨i, hi⟩).svg
          = (if slotCol i = 0 then svgCacheName plain_data
             else svgCacheName chk_data) ∧
        (page.get ⟨i, hi⟩).bottom
          = (if slotCol i = 0 then plain_bottom else chk_bottom) := by
  refine ⟨rfl, ?_⟩
  have hpage : main_mixed cs raw plus
      = some ((List.range 6).map (fun i =>
          if slotCol i = 0 then
            ⟨slotX i, slotY i, svgCacheName plain_data, plain_bottom⟩
          else
            ⟨slotX i, slotY i, svgCacheName chk_data, chk_bottom⟩)) := by
    simp only [main_mixed, report_ymca_letter_6up_mixed]
    rw [h1, h2]
    rfl
  refine ⟨_, hpage, by simp, ?_⟩
  intro i hi
  have hi6 : i < 6 := by simpa using hi
  by_cases h0 : slotCol i = 0 <;>
    simp [List.get_eq_getElem, h0]

theorem claim_C4_witness :
    build_data ['a'] false false = some (['A'], ['A']) ∧
    build_data ['a'] true false = some (['A', 'A'], ['A', 'A']) ∧
    (main_mixed true ['a'] false = main_mixed false ['a'] false ∧
     ∃ page, main_mixed true ['a'] false = some page ∧ page.length = 6 ∧
       ∀ i (hi : i < page.length),
         (page.get ⟨i, hi⟩).svg
           = (if slotCol i = 0 then svgCacheName ['A']
              else svgCacheName ['A', 'A']) ∧
         (page.get ⟨i, hi⟩).bottom
           = (if slotCol i = 0 then ['A'] else ['A', 'A'])) :=
  ⟨by decide, by decide,
    claim_C4 true ['a'] false _ _ _ _ (by decide) (by decide)⟩

/-- C2 counterexample: for raw input `"$"` (no plus prefix) the plain
encoded string is `"$"` and the checksum-protected one is `"$$"` (the
check digit of `"$"` is `'$'` itself); both sanitize to `"_"`, so the two
variants of the six-card mixed report share one cache file `"_.svg"`. -/
theorem claim_C2_counterexample :
    build_data "$".data false false = some ("$".data, "$".data) ∧
    build_data "$".data true false = some ("$$".data, "$$".data) ∧
    "$".data ≠ "$$".data ∧
    svgCacheName "$".data = svgCacheName "$$".data := by
  refine ⟨by decide, by decide, by decide, by decide⟩

/-- C2 (amended): the plain and checksum cache file paths of the six-card
mixed report are distinct whenever the check digit is itself in the
filename-safe class `[A-Za-z0-9._-]` and the sanitized plain encoded
string is shorter than the 120-character truncation limit.  (They can
coincide otherwise: sanitization may collapse the check digit into an
adjacent underscore run, or truncation may cut it off.) -/
theorem claim_C2_amended (raw : List Char) (plus : Bool)
    (pd pb cdata cb : List Char) (cd : Char)
    (h1 : build_data raw false plus = some (pd, pb))
    (h2 : build_data raw true plus = some (cdata, cb))
    (hcd : mod43_check_digit pd = some cd)
    (hsafe : isFilenameSafe cd = true)
    (hlen : (safe_filename pd).length < 120) :
    svgCacheName cdata ≠ svgCacheName pd := by
  have hpd : pd = base_data raw plus := by
    have h1' := h1
    simp only [build_data, Bool.false_eq_true, if_false] at h1'
    injection h1' with h1''
    exact (congrArg Prod.fst h1'').symm
  have hcdata : cdata = pd ++ [cd] := by
    have h2' := h2
    simp only [build_data, if_true] at h2'
    rw [← hpd] at h2'
    rw [hcd] at h2'
    injection h2' with h2''
    exact (congrArg Prod.fst h2'').symm
  have hfix1 : pd.dropWhile pyIsSpace = pd := by
    rw [hpd]; exact base_data_lstrip raw plus
  have hfix2 : pyStrip pd = pd := by
    rw [hpd]; exact pyStrip_base_data raw plus
  rw [hcdata, svgCacheName, svgCacheName,
    safe_filename_append_safe pd cd hsafe hfix1 hfix2 hlen]
  intro heq
  have hlen2 := congrArg List.length heq
  simp only [List.length_append, List.length_cons, List.length_nil]
    at hlen2
  omega

theorem claim_C2_witness :
    build_data "abc".data false false = some ("ABC".data, "ABC".data) ∧
    build_data "abc".data true false = some ("ABCX".data, "ABCX".data) ∧
    mod43_check_digit "ABC".data = some 'X' ∧
    isFilenameSafe 'X' = true ∧
    (safe_filename "ABC".data).length < 120 ∧
    svgCacheName "ABCX".data ≠ svgCacheName "ABC".data :=
  ⟨by decide, by decide, by decide, by decide, by decide,
    claim_C2_amended "abc".data false "ABC".data "ABC".data
      "ABCX".data "ABCX".data 'X'
      (by decide) (by decide) (by decide) (by decide) (by decide)⟩

theorem claim_C3_witness :
    (1 : Nat) ≠ 0 ∧ svgCacheName ['A'] ∉ (GenDir.mk []).files ∧
    (ensure_barcode_svg 1 ⟨[]⟩ ['A']
       = (⟨[]⟩, .error (.calledProcessError 1)) ∧
     (ensure_barcode_svg 0 (ensure_barcode_svg 1 ⟨[]⟩ ['A']).1 ['A']).2
       = .ok (svgCacheName ['A'], 1)) :=
  ⟨by decide, by decide, claim_C3 ⟨[]⟩ ['A'] 1 (by decide) (by decide)⟩

end YmcaCard
